import Mathlib

/-!
# Verification of the project-finder directory scanner

A shallow embedding of `src/main.rs`: a recursive directory walker that
classifies each directory as "a project" (a `.git` marker directory and/or
Node.js ecosystem markers) and prunes descent at project roots.

The filesystem is modelled as a finite tree (`FSNode`); a path is a list of
name components (modelling `PathBuf`, with `push` = append and `pop` =
`dropLast`).  Stat failures on an entry are modelled by the `inaccessible`
constructor (Rust's `Path::is_file` / `Path::is_dir` return `false` on any
metadata error).  A failure of `fs::read_dir` while enumerating a directory's
children is modelled by the `readErr` flag on `dir` nodes.
-/

namespace ProjectFinder

/-- The version-control fact (`struct Git` in the source): two placeholder
booleans, "worktree is clean" and "needs sync with remote". -/
structure Git where
  clean : Bool
  nosync : Bool
deriving Repr, DecidableEq, Inhabited

/-- The ecosystem fact variants (`enum ProjectKind` in the source). -/
inductive ProjectKind where
  | NodeJS (installed : Bool) (lockfile : Bool)
  | Rust (installed : Bool)
deriving Repr, DecidableEq, Inhabited

/-- A classification of one directory (`struct Project` in the source):
two independent optional facts. -/
structure Project where
  git : Option Git
  kind : Option ProjectKind
deriving Repr, DecidableEq, Inhabited

/-- `Project::is_project` from the source: `self.git.is_some() || self.kind.is_some()`. -/
def Project.is_project (p : Project) : Bool :=
  p.git.isSome || p.kind.isSome

/-- A node of the modelled filesystem.  `file` is a regular file,
`inaccessible` is an entry whose metadata cannot be statted (probes treat it
as absent), and `dir` is a directory with named children; `readErr = true`
means enumerating its children with `fs::read_dir` fails. -/
inductive FSNode where
  | file : FSNode
  | inaccessible : FSNode
  | dir (children : List (String × FSNode)) (readErr : Bool) : FSNode
deriving Inhabited

/-- Look up a named entry among a directory's children (first match). -/
def lookup (children : List (String × FSNode)) (name : String) : Option FSNode :=
  match children with
  | [] => none
  | (n, node) :: rest => if n = name then some node else lookup rest name

/-- Resolve a path (list of components) against a filesystem root. -/
def resolve (fs : FSNode) (path : List String) : Option FSNode :=
  match path with
  | [] => some fs
  | n :: rest =>
    match fs with
    | FSNode.dir children _ =>
      match lookup children n with
      | some child => resolve child rest
      | none => none
    | _ => none

/-- `Path::is_file`: true iff the path resolves to a regular file; any
resolution or stat failure yields `false`, never an error. -/
def path_is_file (fs : FSNode) (p : List String) : Bool :=
  match resolve fs p with
  | some FSNode.file => true
  | _ => false

/-- `Path::is_dir`: true iff the path resolves to a directory; any
resolution or stat failure yields `false`, never an error. -/
def path_is_dir (fs : FSNode) (p : List String) : Bool :=
  match resolve fs p with
  | some (FSNode.dir _ _) => true
  | _ => false

/-- `fn is_file(path_buf: &mut PathBuf, file_name: &str) -> bool` from the
source: push the name, stat, pop.  The returned pair is (final state of the
`PathBuf`, result). -/
def is_file (fs : FSNode) (path_buf : List String) (file_name : String) :
    List String × Bool :=
  let path_buf := path_buf ++ [file_name]
  let result := path_is_file fs path_buf
  let path_buf := path_buf.dropLast
  (path_buf, result)

/-- `fn is_dir(path_buf: &mut PathBuf, file_name: &str) -> bool` from the
source: push the name, stat, pop. -/
def is_dir (fs : FSNode) (path_buf : List String) (file_name : String) :
    List String × Bool :=
  let path_buf := path_buf ++ [file_name]
  let result := path_is_dir fs path_buf
  let path_buf := path_buf.dropLast
  (path_buf, result)

/-- `fn examine(directory: &Path) -> Project` from the source, threading the
mutable `PathBuf` exactly as the code does (including the final extra `pop`,
whose result is dropped with the local buffer).  In the source
`has_lockfile` short-circuits; since `is_file` restores the buffer and is
effect-free in the model, evaluating both operands is equivalent. -/
def examine (fs : FSNode) (directory : List String) : Project :=
  let path_buf := directory
  let path_buf := path_buf ++ [".git"]
  let git := if path_is_dir fs path_buf then
      some { clean := true, nosync := true }
    else
      none
  let path_buf := path_buf.dropLast
  let r1 := is_file fs path_buf "package.json"
  let path_buf := r1.1
  let has_package_json := r1.2
  let r2 := is_file fs path_buf "package-lock.json"
  let path_buf := r2.1
  let r3 := is_file fs path_buf "yarn.lock"
  let path_buf := r3.1
  let has_lockfile := r2.2 || r3.2
  let r4 := is_dir fs path_buf "node_modules"
  let path_buf := r4.1
  let has_node_modules := r4.2
  let kind := if has_package_json || has_lockfile || has_node_modules then
      some (ProjectKind.NodeJS has_node_modules has_lockfile)
    else
      none
  let _path_buf := path_buf.dropLast
  { git := git, kind := kind }

/-- Whether a directory has a child of the given name that is a regular file. -/
def dirHasFile (children : List (String × FSNode)) (name : String) : Bool :=
  match lookup children name with
  | some FSNode.file => true
  | _ => false

/-- Whether a directory has a child of the given name that is a directory. -/
def dirHasDir (children : List (String × FSNode)) (name : String) : Bool :=
  match lookup children name with
  | some (FSNode.dir _ _) => true
  | _ => false

/-- The classifier expressed directly on a directory's children list:
every probe of `examine` tests an entry directly under the input directory,
so the classification is a function of the children alone. -/
def examineNode (children : List (String × FSNode)) : Project :=
  let git := if dirHasDir children ".git" then
      some { clean := true, nosync := true }
    else
      none
  let has_package_json := dirHasFile children "package.json"
  let has_lockfile := dirHasFile children "package-lock.json" || dirHasFile children "yarn.lock"
  let has_node_modules := dirHasDir children "node_modules"
  let kind := if has_package_json || has_lockfile || has_node_modules then
      some (ProjectKind.NodeJS has_node_modules has_lockfile)
    else
      none
  { git := git, kind := kind }

/-- Spec-side rendering of `examine` in which each probe is written as a
direct query on `directory ++ [name]`, with no `PathBuf` threading: used to
state that each successive probe tests an entry directly under the same
base directory. -/
def examine_direct (fs : FSNode) (directory : List String) : Project :=
  let git := if path_is_dir fs (directory ++ [".git"]) then
      some { clean := true, nosync := true }
    else
      none
  let has_package_json := path_is_file fs (directory ++ ["package.json"])
  let has_lockfile := path_is_file fs (directory ++ ["package-lock.json"]) ||
    path_is_file fs (directory ++ ["yarn.lock"])
  let has_node_modules := path_is_dir fs (directory ++ ["node_modules"])
  let kind := if has_package_json || has_lockfile || has_node_modules then
      some (ProjectKind.NodeJS has_node_modules has_lockfile)
    else
      none
  { git := git, kind := kind }

lemma is_file_fst (fs : FSNode) (p : List String) (n : String) :
    (is_file fs p n).1 = p := by
  simp [is_file, List.dropLast_concat]

lemma is_dir_fst (fs : FSNode) (p : List String) (n : String) :
    (is_dir fs p n).1 = p := by
  simp [is_dir, List.dropLast_concat]

lemma examine_eq_direct (fs : FSNode) (d : List String) :
    examine fs d = examine_direct fs d := by
  simp [examine, examine_direct, is_file, is_dir, List.dropLast_concat]

/-- Resolving one extra component goes through the children of the base. -/
lemma resolve_append (fs : FSNode) (p : List String) (n : String) :
    resolve fs (p ++ [n]) =
      (match resolve fs p with
       | some (FSNode.dir children _) => lookup children n
       | _ => none) := by
  induction p generalizing fs with
  | nil =>
    cases fs with
    | file => simp [resolve]
    | inaccessible => simp [resolve]
    | dir children readErr =>
      simp only [List.nil_append, resolve]
      cases h : lookup children n with
      | none => simp [h]
      | some child => simp [h, resolve]
  | cons a rest ih =>
    cases fs with
    | file => simp [resolve]
    | inaccessible => simp [resolve]
    | dir children readErr =>
      simp only [List.cons_append, resolve]
      cases h : lookup children a with
      | none => simp
      | some child => exact ih child

lemma path_is_dir_append (fs : FSNode) (d : List String) (n : String)
    (children : List (String × FSNode)) (readErr : Bool)
    (h : resolve fs d = some (FSNode.dir children readErr)) :
    path_is_dir fs (d ++ [n]) = dirHasDir children n := by
  simp only [path_is_dir, resolve_append, h, dirHasDir]

lemma path_is_file_append (fs : FSNode) (d : List String) (n : String)
    (children : List (String × FSNode)) (readErr : Bool)
    (h : resolve fs d = some (FSNode.dir children readErr)) :
    path_is_file fs (d ++ [n]) = dirHasFile children n := by
  simp only [path_is_file, resolve_append, h, dirHasFile]

/-- When the input path resolves to a directory, the `PathBuf`-threading
classifier agrees with the children-level classifier. -/
lemma examine_eq_examineNode (fs : FSNode) (d : List String)
    (children : List (String × FSNode)) (readErr : Bool)
    (h : resolve fs d = some (FSNode.dir children readErr)) :
    examine fs d = examineNode children := by
  rw [examine_eq_direct]
  simp only [examine_direct, examineNode,
    path_is_dir_append fs d _ children readErr h,
    path_is_file_append fs d _ children readErr h]

/-- Whether a filesystem node is a directory (what `path.is_dir()` reports
for a child entry of a consistent filesystem). -/
def isDirNode : FSNode → Bool
  | FSNode.dir _ _ => true
  | _ => false

/-- The observable outcome of a scan: the reports printed (path plus
classification, in print order), the entries handed to the per-file
callback, and the directories that were classified, in visit order. -/
structure ScanResult where
  reports : List (List String × Project)
  files : List (List String)
  visited : List (List String)
deriving Repr, DecidableEq, Inhabited

/-- The empty outcome. -/
def ScanResult.empty : ScanResult :=
  { reports := [], files := [], visited := [] }

/-- Concatenate two outcomes in order. -/
def ScanResult.append (a b : ScanResult) : ScanResult :=
  { reports := a.reports ++ b.reports
    files := a.files ++ b.files
    visited := a.visited ++ b.visited }

mutual

/-- `fn visit_dirs(dir: &Path, cb: &dyn Fn(&DirEntry)) -> io::Result<()>`
from the source, with the print statements and callback invocations made
observable in a `ScanResult`.  The second component is `none` on success
(`Ok(())`) and `some p` when enumerating the children of directory `p`
failed, which aborts the scan (the `?` operator); whatever was produced
before the abort is kept, as the program's stdout
would be. -/
def visitNode (node : FSNode) (dir : List String) :
    ScanResult × Option (List String) :=
  match node with
  | FSNode.dir children readErr =>
    let project := examineNode children
    if project.is_project then
      ({ reports := [(dir, project)], files := [], visited := [dir] }, none)
    else if readErr then
      ({ reports := [], files := [], visited := [dir] }, some dir)
    else
      match visitChildren children dir with
      | (r, e) => ({ r with visited := dir :: r.visited }, e)
  | _ => (ScanResult.empty, none)

/-- The `for entry in fs::read_dir(dir)?` loop of `visit_dirs`: recurse into
each child directory, hand every other entry to the callback, stopping at
the first error. -/
def visitChildren (entries : List (String × FSNode)) (dir : List String) :
    ScanResult × Option (List String) :=
  match entries with
  | [] => (ScanResult.empty, none)
  | (name, child) :: rest =>
    let path := dir ++ [name]
    if isDirNode child then
      match visitNode child path with
      | (r1, some e) => (r1, some e)
      | (r1, none) =>
        match visitChildren rest dir with
        | (r2, e2) => (r1.append r2, e2)
    else
      match visitChildren rest dir with
      | (r2, e2) => ({ r2 with files := path :: r2.files }, e2)

end

/-- The entry point: resolve the user-supplied root against the filesystem
and walk it (`visit_dirs(Path::new(input_directory), ...)` in `main`).  A
root that does not resolve at all fails `dir.is_dir()` just as a non-directory
node does. -/
def run_visit (fs : FSNode) (dir : List String) :
    ScanResult × Option (List String) :=
  match resolve fs dir with
  | some node => visitNode node dir
  | none => (ScanResult.empty, none)

/-- The `impl fmt::Display for Project` of the source, as a list of output
lines (the source joins the two facts with `writeln!`); ANSI color codes
from the `colored` crate are presentation-only and omitted. -/
def Project.fmtLines (p : Project) : List String :=
  let gitLine :=
    match p.git with
    | some g =>
      "  found Git with " ++ (if g.clean then "clean" else "dirty") ++
        " worktree and " ++ (if g.nosync then "need sync" else "synced")
    | none => "no Git found"
  match p.kind with
  | none => [gitLine]
  | some (ProjectKind.NodeJS installed lockfile) =>
    [gitLine,
      "  found " ++ (if installed then "installed" else "uninitialized") ++
        " Node.js (" ++ (if lockfile then "has" else "no") ++ " lockfile)"]
  | some (ProjectKind.Rust installed) =>
    [gitLine,
      "found " ++ (if installed then "installed" else "uninitialized") ++ " Rust"]

/-- How `visit_dirs` prints one report: `println!("[{}]", dir_path)` followed
by the `Display` rendering of the classification. -/
def renderReport (r : List String × Project) : List String :=
  ("[" ++ String.intercalate "/" r.1 ++ "]") :: r.2.fmtLines

/-- All stdout lines of a scan outcome, in print order. -/
def outputLines (res : ScanResult × Option (List String)) : List String :=
  res.1.reports.flatMap renderReport

/-- Substring test on lists of characters: does the second list start with
the first? -/
def charsStartWith : List Char → List Char → Bool
  | [], _ => true
  | _ :: _, [] => false
  | a :: as, b :: bs => a = b && charsStartWith as bs

/-- Substring test on lists of characters: does the needle occur anywhere
in the haystack? -/
def charsContain (needle : List Char) : List Char → Bool
  | [] => needle.isEmpty
  | c :: rest => charsStartWith needle (c :: rest) || charsContain needle rest

/-- Does the string `hay` contain `needle` as a contiguous substring? -/
def strContains (hay needle : String) : Bool :=
  charsContain needle.toList hay.toList

mutual

/-- Modelled from the spec: "enumerating the children of some visited
non-project directory fails" — whether the scan starting at this node
reaches a directory whose children cannot be enumerated.  Directories
behind a project root are pruned and cannot contribute; non-directory
entries are never descended into. -/
def hasReadFailure : FSNode → Bool
  | FSNode.dir children readErr =>
    if (examineNode children).is_project then false
    else readErr || hasReadFailureList children
  | _ => false

/-- `hasReadFailure` over a children list. -/
def hasReadFailureList : List (String × FSNode) → Bool
  | [] => false
  | e :: rest => hasReadFailure e.2 || hasReadFailureList rest

end

mutual

/-- The walker instrumented with its recursion depth: the first component
is exactly the outcome of `visitNode`, the second is the number of stack
frames of `visit_dirs` on the deepest branch actually taken (each call
contributes one frame; the callback and probes do not recurse). -/
def visitDepth (node : FSNode) (dir : List String) :
    (ScanResult × Option (List String)) × Nat :=
  match node with
  | FSNode.dir children readErr =>
    let project := examineNode children
    if project.is_project then
      ((({ reports := [(dir, project)], files := [], visited := [dir] } : ScanResult), none), 1)
    else if readErr then
      ((({ reports := [], files := [], visited := [dir] } : ScanResult), some dir), 1)
    else
      match visitChildrenDepth children dir with
      | ((r, e), d) => ((({ r with visited := dir :: r.visited } : ScanResult), e), 1 + d)
  | _ => ((ScanResult.empty, none), 1)

/-- Depth-instrumented version of `visitChildren`: the depth is the maximum
over the recursive calls actually performed (0 when none is). -/
def visitChildrenDepth (entries : List (String × FSNode)) (dir : List String) :
    (ScanResult × Option (List String)) × Nat :=
  match entries with
  | [] => ((ScanResult.empty, none), 0)
  | (name, child) :: rest =>
    let path := dir ++ [name]
    if isDirNode child then
      match visitDepth child path with
      | ((r1, some e), d1) => ((r1, some e), d1)
      | ((r1, none), d1) =>
        match visitChildrenDepth rest dir with
        | ((r2, e2), d2) => ((r1.append r2, e2), max d1 d2)
    else
      match visitChildrenDepth rest dir with
      | ((r2, e2), d2) => ((({ r2 with files := path :: r2.files } : ScanResult), e2), d2)

end

mutual

/-- Modelled from the spec: "the tree depth at the point of first reaching a
project boundary on each branch, or the full depth if no project exists" —
the depth of the directory tree truncated at project roots. -/
def scanDepth : FSNode → Nat
  | FSNode.dir children _ =>
    if (examineNode children).is_project then 1
    else 1 + scanDepthList children
  | _ => 1

/-- Branch-wise maximum of `scanDepth` over the child directories (plain
files are not descended into and contribute nothing). -/
def scanDepthList : List (String × FSNode) → Nat
  | [] => 0
  | e :: rest =>
    max (if isDirNode e.2 then scanDepth e.2 else 0) (scanDepthList rest)

end

mutual

/-- The full depth of the directory tree, with no truncation at project
boundaries. -/
def treeDepth : FSNode → Nat
  | FSNode.dir children _ => 1 + treeDepthList children
  | _ => 1

/-- Branch-wise maximum of `treeDepth` over the child directories. -/
def treeDepthList : List (String × FSNode) → Nat
  | [] => 0
  | e :: rest =>
    max (if isDirNode e.2 then treeDepth e.2 else 0) (treeDepthList rest)

end

mutual

/-- No directory in this tree is classified as a project. -/
def projectFree : FSNode → Bool
  | FSNode.dir children _ =>
    !(examineNode children).is_project && projectFreeList children
  | _ => true

/-- `projectFree` over a children list. -/
def projectFreeList : List (String × FSNode) → Bool
  | [] => true
  | e :: rest => projectFree e.2 && projectFreeList rest

end

/-- The filesystem of the spec's first scenario: the scanned root contains a
subdirectory `proj-a` holding only an empty `.git` marker directory. -/
def projAScenario : FSNode :=
  FSNode.dir [("proj-a", FSNode.dir [(".git", FSNode.dir [] false)] false)] false

/-- C2: for every `Classification` value, the "is a project" predicate holds
if and only if at least one of its two facts (version-control fact,
ecosystem fact) is present (non-absent). -/
theorem is_project_iff_some_fact (p : Project) :
    p.is_project = true ↔ (p.git ≠ none ∨ p.kind ≠ none) := by
  cases p with
  | mk git kind => cases git <;> cases kind <;> simp [Project.is_project]

/-- C10: the probes `is_file` and `is_dir` leave their `PathBuf` argument
equal to its value before the call (each push is matched by a pop), and
consequently every probe inside `examine` tests an entry directly under the
same base directory (`examine` agrees with `examine_direct`, which queries
`directory ++ [name]` for each marker). -/
theorem probes_preserve_path_buf :
    (∀ fs p n, (is_file fs p n).1 = p) ∧
    (∀ fs p n, (is_dir fs p n).1 = p) ∧
    (∀ fs d, examine fs d = examine_direct fs d) :=
  ⟨is_file_fst, is_dir_fst, examine_eq_direct⟩

/-- C3: the classifier's version-control fact is present iff an entry named
`.git` exists as a directory directly under the input directory, and when
present it carries the fixed placeholder booleans clean = true and
nosync = true; the value depends only on whether such a `.git` directory
exists, never on its contents. -/
theorem examine_git_fact (fs : FSNode) (d : List String)
    (children : List (String × FSNode)) (readErr : Bool)
    (h : resolve fs d = some (FSNode.dir children readErr)) :
    (examine fs d).git =
      if dirHasDir children ".git" then
        some { clean := true, nosync := true }
      else
        none := by
  rw [examine_eq_examineNode fs d children readErr h]
  simp [examineNode]

/-- Witness for C3: a concrete root `p` containing a `.git` directory. -/
theorem examine_git_fact_witness :
    resolve (FSNode.dir [("p", FSNode.dir [(".git", FSNode.dir [] false)] false)] false)
        ["p"] = some (FSNode.dir [(".git", FSNode.dir [] false)] false) ∧
    (examine (FSNode.dir [("p", FSNode.dir [(".git", FSNode.dir [] false)] false)] false)
        ["p"]).git =
      if dirHasDir [(".git", FSNode.dir [] false)] ".git" then
        some { clean := true, nosync := true }
      else
        none :=
  ⟨rfl, examine_git_fact _ ["p"] [(".git", FSNode.dir [] false)] false rfl⟩

/-- C5: the classifier's ecosystem fact is the Node.js variant iff at least
one of `package.json` (file), a lockfile (`package-lock.json` or
`yarn.lock`, file), or `node_modules` (directory) exists directly under the
input directory; when produced, `installed` equals the `node_modules`
presence and `lockfile` equals the lockfile presence (the manifest presence
is only a trigger); otherwise the fact is absent. -/
theorem examine_ecosystem_fact (fs : FSNode) (d : List String)
    (children : List (String × FSNode)) (readErr : Bool)
    (h : resolve fs d = some (FSNode.dir children readErr)) :
    (examine fs d).kind =
      if dirHasFile children "package.json" ||
          (dirHasFile children "package-lock.json" || dirHasFile children "yarn.lock") ||
          dirHasDir children "node_modules" then
        some (ProjectKind.NodeJS (dirHasDir children "node_modules")
          (dirHasFile children "package-lock.json" || dirHasFile children "yarn.lock"))
      else
        none := by
  rw [examine_eq_examineNode fs d children readErr h]
  simp [examineNode]

/-- Witness for C5: a concrete root `p` containing `package.json`,
`yarn.lock` and `node_modules`. -/
theorem examine_ecosystem_fact_witness :
    resolve (FSNode.dir [("p", FSNode.dir
        [("package.json", FSNode.file), ("yarn.lock", FSNode.file),
         ("node_modules", FSNode.dir [] false)] false)] false) ["p"] =
      some (FSNode.dir
        [("package.json", FSNode.file), ("yarn.lock", FSNode.file),
         ("node_modules", FSNode.dir [] false)] false) ∧
    (examine (FSNode.dir [("p", FSNode.dir
        [("package.json", FSNode.file), ("yarn.lock", FSNode.file),
         ("node_modules", FSNode.dir [] false)] false)] false) ["p"]).kind =
      if dirHasFile [("package.json", FSNode.file), ("yarn.lock", FSNode.file),
            ("node_modules", FSNode.dir [] false)] "package.json" ||
          (dirHasFile [("package.json", FSNode.file), ("yarn.lock", FSNode.file),
            ("node_modules", FSNode.dir [] false)] "package-lock.json" ||
           dirHasFile [("package.json", FSNode.file), ("yarn.lock", FSNode.file),
            ("node_modules", FSNode.dir [] false)] "yarn.lock") ||
          dirHasDir [("package.json", FSNode.file), ("yarn.lock", FSNode.file),
            ("node_modules", FSNode.dir [] false)] "node_modules" then
        some (ProjectKind.NodeJS
          (dirHasDir [("package.json", FSNode.file), ("yarn.lock", FSNode.file),
            ("node_modules", FSNode.dir [] false)] "node_modules")
          (dirHasFile [("package.json", FSNode.file), ("yarn.lock", FSNode.file),
            ("node_modules", FSNode.dir [] false)] "package-lock.json" ||
           dirHasFile [("package.json", FSNode.file), ("yarn.lock", FSNode.file),
            ("node_modules", FSNode.dir [] false)] "yarn.lock"))
      else
        none :=
  ⟨rfl, examine_ecosystem_fact _ ["p"] _ false rfl⟩

/-- C1: a directory classified as a project yields exactly one report (its
own), an empty callback list, and a visited list containing only itself:
no descendant is visited, classified, or reported, whatever markers the
descendants contain (the walker never looks at them). -/
theorem project_dir_prunes (children : List (String × FSNode)) (readErr : Bool)
    (dir : List String) (h : (examineNode children).is_project = true) :
    visitNode (FSNode.dir children readErr) dir =
      (({ reports := [(dir, examineNode children)], files := [],
          visited := [dir] } : ScanResult), none) := by
  simp [visitNode, h]

/-- Witness for C1: a project directory whose `.git` marker itself contains
a nested project marker, and whose listing would even fail — none of which
is observed, because the walker prunes. -/
theorem project_dir_prunes_witness :
    (examineNode [(".git", FSNode.dir [("inner", FSNode.dir
        [(".git", FSNode.dir [] false)] false)] false)]).is_project = true ∧
    visitNode (FSNode.dir [(".git", FSNode.dir [("inner", FSNode.dir
        [(".git", FSNode.dir [] false)] false)] false)] true) ["r"] =
      (({ reports := [(["r"], examineNode [(".git", FSNode.dir [("inner", FSNode.dir
          [(".git", FSNode.dir [] false)] false)] false)])], files := [],
          visited := [["r"]] } : ScanResult), none) :=
  ⟨by rfl, project_dir_prunes _ true ["r"] (by rfl)⟩

/-- C7: a root path that does not exist or is not a directory makes the
walk a silent no-op: no reports, no callback invocations, nothing
classified, and a success return. -/
theorem missing_root_is_noop (fs : FSNode) (dir : List String)
    (h : path_is_dir fs dir = false) :
    run_visit fs dir = (ScanResult.empty, none) := by
  unfold run_visit
  cases hr : resolve fs dir with
  | none => rfl
  | some node =>
    cases node with
    | file => rfl
    | inaccessible => rfl
    | dir children readErr =>
      exfalso
      rw [path_is_dir, hr] at h
      simp at h

/-- Witness for C7: scanning the path `x/y` in a filesystem whose root has
no children at all. -/
theorem missing_root_is_noop_witness :
    path_is_dir (FSNode.dir [] false) ["x", "y"] = false ∧
    run_visit (FSNode.dir [] false) ["x", "y"] = (ScanResult.empty, none) :=
  ⟨rfl, missing_root_is_noop (FSNode.dir [] false) ["x", "y"] rfl⟩

/-- C4 counterexample: in the spec's `proj-a/.git/` scenario the program
prints the bracketed path and then `  found Git with clean worktree and
need sync` — no output line indicates a synced worktree, because the
placeholder `nosync = true` renders as "need sync". -/
theorem scenario_git_line_not_synced :
    outputLines (visitNode projAScenario ["root"]) =
      ["[root/proj-a]", "  found Git with clean worktree and need sync"] ∧
    (outputLines (visitNode projAScenario ["root"])).any
      (fun l => strContains l "synced") = false := by
  exact ⟨by decide, by decide⟩

/-- C4 (amended): in the `proj-a/.git/` scenario the output contains the
bracketed path of `proj-a` followed by a single line indicating a
version-control worktree was found, clean, and needing sync with the
remote (the placeholder values clean = true, nosync = true), with no
ecosystem line. -/
theorem scenario_git_only_project :
    visitNode projAScenario ["root"] =
      (({ reports := [(["root", "proj-a"],
            { git := some { clean := true, nosync := true }, kind := none })],
          files := [],
          visited := [["root"], ["root", "proj-a"]] } : ScanResult), none) ∧
    outputLines (visitNode projAScenario ["root"]) =
      ["[root/proj-a]", "  found Git with clean worktree and need sync"] ∧
    (Project.fmtLines
        { git := some { clean := true, nosync := true }, kind := none }).length = 1 := by
  exact ⟨by decide, by decide, by decide⟩

lemma ext_step {q dir : List String} {name : String}
    (h : q = dir ++ [name] ∨ ∃ t, t ≠ [] ∧ q = (dir ++ [name]) ++ t) :
    ∃ t, t ≠ [] ∧ q = dir ++ t := by
  rcases h with h | ⟨t, ht, h⟩
  · exact ⟨[name], by simp, h⟩
  · exact ⟨name :: t, by simp, by simp [h]⟩

mutual

/-- Every path in the outcome of a walk rooted at `dir` is `dir` itself or
a strict extension of it. -/
theorem visitNode_ext (node : FSNode) (dir : List String) :
    (∀ q ∈ (visitNode node dir).1.reports.map Prod.fst,
        q = dir ∨ ∃ t, t ≠ [] ∧ q = dir ++ t) ∧
    (∀ q ∈ (visitNode node dir).1.files, ∃ t, t ≠ [] ∧ q = dir ++ t) ∧
    (∀ q ∈ (visitNode node dir).1.visited,
        q = dir ∨ ∃ t, t ≠ [] ∧ q = dir ++ t) := by
  cases node with
  | file => simp [visitNode, ScanResult.empty]
  | inaccessible => simp [visitNode, ScanResult.empty]
  | dir children readErr =>
    have ihc := visitChildren_ext children dir
    cases hp : (examineNode children).is_project with
    | true => simp [visitNode, hp]
    | false =>
      cases hr : readErr with
      | true => simp [visitNode, hp, hr]
      | false =>
        rcases hvc : visitChildren children dir with ⟨r, e⟩
        rw [hvc] at ihc
        refine ⟨?_, ?_, ?_⟩
        · intro q hq
          simp [visitNode, hp, hr, hvc] at hq
          exact Or.inr (ihc.1 q (by simpa using hq))
        · intro q hq
          simp [visitNode, hp, hr, hvc] at hq
          exact ihc.2.1 q (by simpa using hq)
        · intro q hq
          simp [visitNode, hp, hr, hvc] at hq
          rcases hq with hq | hq
          · exact Or.inl hq
          · exact Or.inr (ihc.2.2 q (by simpa using hq))

/-- Every path in the outcome of the children loop at `dir` strictly
extends `dir`. -/
theorem visitChildren_ext (entries : List (String × FSNode)) (dir : List String) :
    (∀ q ∈ (visitChildren entries dir).1.reports.map Prod.fst,
        ∃ t, t ≠ [] ∧ q = dir ++ t) ∧
    (∀ q ∈ (visitChildren entries dir).1.files, ∃ t, t ≠ [] ∧ q = dir ++ t) ∧
    (∀ q ∈ (visitChildren entries dir).1.visited, ∃ t, t ≠ [] ∧ q = dir ++ t) := by
  cases entries with
  | nil => simp [visitChildren, ScanResult.empty]
  | cons hd rest =>
    rcases hd with ⟨name, child⟩
    have ihRest := visitChildren_ext rest dir
    cases hdn : isDirNode child with
    | true =>
      have ihChild := visitNode_ext child (dir ++ [name])
      rcases hv : visitNode child (dir ++ [name]) with ⟨r1, e1⟩
      rw [hv] at ihChild
      cases e1 with
      | some e =>
        refine ⟨?_, ?_, ?_⟩
        · intro q hq
          simp [visitChildren, hdn, hv] at hq
          exact ext_step (ihChild.1 q (by simpa using hq))
        · intro q hq
          simp [visitChildren, hdn, hv] at hq
          exact ext_step (Or.inr (ihChild.2.1 q (by simpa using hq)))
        · intro q hq
          simp [visitChildren, hdn, hv] at hq
          exact ext_step (ihChild.2.2 q (by simpa using hq))
      | none =>
        rcases hvr : visitChildren rest dir with ⟨r2, e2⟩
        rw [hvr] at ihRest
        refine ⟨?_, ?_, ?_⟩
        · intro q hq
          simp [visitChildren, hdn, hv, hvr, ScanResult.append] at hq
          rcases hq with hq | hq
          · exact ext_step (ihChild.1 q (by simpa using hq))
          · exact ihRest.1 q (by simpa using hq)
        · intro q hq
          simp [visitChildren, hdn, hv, hvr, ScanResult.append] at hq
          rcases hq with hq | hq
          · exact ext_step (Or.inr (ihChild.2.1 q (by simpa using hq)))
          · exact ihRest.2.1 q (by simpa using hq)
        · intro q hq
          simp [visitChildren, hdn, hv, hvr, ScanResult.append] at hq
          rcases hq with hq | hq
          · exact ext_step (ihChild.2.2 q (by simpa using hq))
          · exact ihRest.2.2 q (by simpa using hq)
    | false =>
      rcases hvr : visitChildren rest dir with ⟨r2, e2⟩
      rw [hvr] at ihRest
      refine ⟨?_, ?_, ?_⟩
      · intro q hq
        simp [visitChildren, hdn, hvr] at hq
        exact ihRest.1 q (by simpa using hq)
      · intro q hq
        simp [visitChildren, hdn, hvr] at hq
        rcases hq with hq | hq
        · exact ⟨[name], by simp, hq⟩
        · exact ihRest.2.1 q (by simpa using hq)
      · intro q hq
        simp [visitChildren, hdn, hvr] at hq
        exact ihRest.2.2 q (by simpa using hq)

end

lemma if_flip {α : Type} [DecidableEq α] (a b : α) (x y : Nat) :
    (if a = b then x else y) = if b = a then x else y := by
  by_cases h : a = b
  · simp [h]
  · simp [h, Ne.symm h]

lemma count_zero_of_ext {l : List (List String)} {path q : List String}
    (hl : ∀ x ∈ l, ∃ t, t ≠ [] ∧ x = path ++ t) (hq : q.length ≤ path.length) :
    l.count q = 0 := by
  apply List.count_eq_zero.2
  intro hmem
  rcases hl q hmem with ⟨t, ht, hqe⟩
  have hlen : q.length = path.length + t.length := by simp [hqe]
  have htl : 0 < t.length := List.length_pos.2 ht
  omega

/-- A walk rooted at a directory path records that path exactly once among
the classified directories (and never hands it to the callback), for any
query path no longer than it. -/
lemma visitNode_count_short (children : List (String × FSNode)) (ce : Bool)
    (path q : List String) (hq : q.length ≤ path.length) :
    ((visitNode (FSNode.dir children ce) path).1.visited.count q =
      if q = path then 1 else 0) ∧
    ((visitNode (FSNode.dir children ce) path).1.files.count q = 0) := by
  have hext := visitChildren_ext children path
  cases hp : (examineNode children).is_project with
  | true =>
    simp [visitNode, hp, List.count_cons]
    exact if_flip path q 1 0
  | false =>
    cases hce : ce with
    | true =>
      simp [visitNode, hp, List.count_cons]
      exact if_flip path q 1 0
    | false =>
      rcases hvc : visitChildren children path with ⟨r, e⟩
      rw [hvc] at hext
      have hv0 : r.visited.count q = 0 := count_zero_of_ext hext.2.2 hq
      have hf0 : r.files.count q = 0 := count_zero_of_ext hext.2.1 hq
      simp [visitNode, hp, hvc, List.count_cons, hv0, hf0]
      exact if_flip path q 1 0

/-- Under distinct child names, the entry `(name, child)` is the only one
counted by a predicate that tests for the name `name`. -/
lemma countP_unique_name (children : List (String × FSNode)) (name : String)
    (child : FSNode) (p : FSNode → Bool)
    (h2 : (children.map Prod.fst).Nodup) (hmem : (name, child) ∈ children) :
    children.countP (fun x => x.1 = name && p x.2) = if p child then 1 else 0 := by
  induction children with
  | nil => cases hmem
  | cons hd rest ih =>
    rcases hd with ⟨n, c⟩
    rw [List.map_cons, List.nodup_cons] at h2
    rcases List.mem_cons.1 hmem with heq | hmem'
    · have hn : n = name := (congrArg Prod.fst heq).symm
      have hc : c = child := (congrArg Prod.snd heq).symm
      subst hn
      subst hc
      have hrest : rest.countP (fun x => x.1 = n && p x.2) = 0 := by
        apply List.countP_eq_zero.2
        intro a ha
        have hane : a.1 ≠ n := by
          intro hcontra
          have hmm : a.1 ∈ rest.map Prod.fst := List.mem_map_of_mem Prod.fst ha
          rw [hcontra] at hmm
          exact h2.1 hmm
        simp [hane]
      rw [List.countP_cons, hrest]
      simp
    · have hname : name ∈ rest.map Prod.fst :=
        List.mem_map_of_mem Prod.fst hmem'
      have hne : n ≠ name := by
        intro hcontra
        rw [hcontra] at h2
        exact h2.1 hname
      rw [List.countP_cons, ih h2.2 hmem']
      simp [hne]

/-- When the children loop completes without error, the trace of classified
directories contains `dir ++ [name]` once per directory child named `name`,
and the callback trace contains it once per non-directory child named
`name`. -/
lemma visitChildren_count (entries : List (String × FSNode)) (dir : List String)
    (name : String) (h : (visitChildren entries dir).2 = none) :
    ((visitChildren entries dir).1.visited.count (dir ++ [name]) =
      entries.countP (fun x => x.1 = name && isDirNode x.2)) ∧
    ((visitChildren entries dir).1.files.count (dir ++ [name]) =
      entries.countP (fun x => x.1 = name && !isDirNode x.2)) := by
  induction entries with
  | nil => simp [visitChildren, ScanResult.empty]
  | cons hd rest ih =>
    rcases hd with ⟨n, child⟩
    cases hdn : isDirNode child with
    | true =>
      rcases child with _ | _ | ⟨cc, ce⟩
      · simp [isDirNode] at hdn
      · simp [isDirNode] at hdn
      rcases hv : visitNode (FSNode.dir cc ce) (dir ++ [n]) with ⟨r1, e1⟩
      cases e1 with
      | some e =>
        exfalso
        simp [visitChildren, hdn, hv] at h
      | none =>
        rcases hvr : visitChildren rest dir with ⟨r2, e2⟩
        have hrest2 : (visitChildren rest dir).2 = none := by
          simp only [visitChildren, hdn, if_true, hv, hvr] at h
          rw [hvr]
          exact h
        have ihr := ih hrest2
        rw [hvr] at ihr
        have hlen : (dir ++ [name]).length ≤ (dir ++ [n]).length := by simp
        have hcnt := visitNode_count_short cc ce (dir ++ [n]) (dir ++ [name]) hlen
        rw [hv] at hcnt
        have hc1 : List.count (dir ++ [name]) r1.visited =
            if dir ++ [name] = dir ++ [n] then 1 else 0 := by simpa using hcnt.1
        have hc2 : List.count (dir ++ [name]) r1.files = 0 := by simpa using hcnt.2
        have hi1 : List.count (dir ++ [name]) r2.visited =
            rest.countP (fun x => x.1 = name && isDirNode x.2) := by
          simpa using ihr.1
        have hi2 : List.count (dir ++ [name]) r2.files =
            rest.countP (fun x => x.1 = name && !isDirNode x.2) := by
          simpa using ihr.2
        simp only [visitChildren, hdn, if_true, hv, hvr, ScanResult.append,
          List.count_append, List.countP_cons, hc1, hc2, hi1, hi2]
        constructor
        · rcases eq_or_ne n name with hnn | hnn
          · subst hnn
            simp [hdn, Nat.add_comm]
          · simp [hdn, hnn, Ne.symm hnn]
        · simp [hdn]
    | false =>
      rcases hvr : visitChildren rest dir with ⟨r2, e2⟩
      have hrest2 : (visitChildren rest dir).2 = none := by
        simp only [visitChildren, hdn, Bool.false_eq_true, if_false, hvr] at h
        rw [hvr]
        exact h
      have ihr := ih hrest2
      rw [hvr] at ihr
      have hi1 : List.count (dir ++ [name]) r2.visited =
          rest.countP (fun x => x.1 = name && isDirNode x.2) := by
        simpa using ihr.1
      have hi2 : List.count (dir ++ [name]) r2.files =
          rest.countP (fun x => x.1 = name && !isDirNode x.2) := by
        simpa using ihr.2
      simp only [visitChildren, hdn, Bool.false_eq_true, if_false, hvr,
        List.count_cons, List.countP_cons, hi1, hi2]
      constructor
      · simp [hdn]
      · rcases eq_or_ne n name with hnn | hnn
        · subst hnn
          simp [hdn]
        · simp [hdn, hnn, Ne.symm hnn]

/-- C6: a directory that is not a project has each of its immediate children
handled exactly once — each directory child is recursed into (hence
classified) exactly once, and each remaining child is handed exactly once to
the caller-supplied per-file callback and never classified. -/
theorem nonproject_children_each_once (children : List (String × FSNode))
    (dir : List String) (name : String) (child : FSNode)
    (h1 : (examineNode children).is_project = false)
    (h2 : (children.map Prod.fst).Nodup)
    (h3 : (visitNode (FSNode.dir children false) dir).2 = none)
    (hmem : (name, child) ∈ children) :
    ((visitNode (FSNode.dir children false) dir).1.visited.count (dir ++ [name]) =
      if isDirNode child then 1 else 0) ∧
    ((visitNode (FSNode.dir children false) dir).1.files.count (dir ++ [name]) =
      if isDirNode child then 0 else 1) := by
  rcases hvc : visitChildren children dir with ⟨r, e⟩
  have hnv : visitNode (FSNode.dir children false) dir =
      (({ r with visited := dir :: r.visited } : ScanResult), e) := by
    simp [visitNode, h1, hvc]
  have he : e = none := by
    rw [hnv] at h3
    exact h3
  subst he
  have hcc := visitChildren_count children dir name (by rw [hvc])
  rw [hvc] at hcc
  have hd1 := countP_unique_name children name child isDirNode h2 hmem
  have hd2 := countP_unique_name children name child (fun x => !isDirNode x) h2 hmem
  constructor
  · rw [hnv]
    have hvv : List.count (dir ++ [name]) r.visited =
        children.countP (fun x => x.1 = name && isDirNode x.2) := by
      simpa using hcc.1
    simp [List.count_cons, hvv, hd1]
  · rw [hnv]
    have hf : List.count (dir ++ [name]) r.files =
        children.countP (fun x => x.1 = name && !isDirNode x.2) := by
      simpa using hcc.2
    simp only [hf, hd2]
    by_cases hdn : isDirNode child = true
    · simp [hdn]
    · rw [Bool.not_eq_true] at hdn
      simp [hdn]

/-- Witness for C6: a non-project directory with one subdirectory `a` and
one plain file `b`; the walk visits `r/a` exactly once and hands it to the
callback zero times. -/
theorem nonproject_children_each_once_witness :
    ((examineNode [("a", FSNode.dir [] false), ("b", FSNode.file)]).is_project = false) ∧
    ((visitNode (FSNode.dir [("a", FSNode.dir [] false), ("b", FSNode.file)] false)
        ["r"]).1.visited.count (["r"] ++ ["a"]) = 1) ∧
    ((visitNode (FSNode.dir [("a", FSNode.dir [] false), ("b", FSNode.file)] false)
        ["r"]).1.files.count (["r"] ++ ["a"]) = 0) := by
  have h := nonproject_children_each_once
    [("a", FSNode.dir [] false), ("b", FSNode.file)] ["r"] "a" (FSNode.dir [] false)
    (by decide) (by decide) (by decide) (List.Mem.head _)
  exact ⟨by decide, by simpa [isDirNode] using h.1, by simpa [isDirNode] using h.2⟩

mutual

/-- The walk fails exactly when some visited non-project directory's
children cannot be enumerated. -/
theorem visitNode_err (node : FSNode) (dir : List String) :
    (visitNode node dir).2.isSome = hasReadFailure node := by
  cases node with
  | file => simp [visitNode, hasReadFailure]
  | inaccessible => simp [visitNode, hasReadFailure]
  | dir children readErr =>
    cases hp : (examineNode children).is_project with
    | true => simp [visitNode, hasReadFailure, hp]
    | false =>
      cases hr : readErr with
      | true => simp [visitNode, hasReadFailure, hp, hr]
      | false =>
        have ihc := visitChildren_err children dir
        rcases hvc : visitChildren children dir with ⟨r, e⟩
        rw [hvc] at ihc
        simp only [visitNode, hasReadFailure, hp, hr, hvc]
        simpa using ihc

/-- The children loop fails exactly when the subtree of some child that
will be descended into contains a reachable enumeration failure. -/
theorem visitChildren_err (entries : List (String × FSNode)) (dir : List String) :
    (visitChildren entries dir).2.isSome = hasReadFailureList entries := by
  cases entries with
  | nil => simp [visitChildren, hasReadFailureList]
  | cons hd rest =>
    rcases hd with ⟨n, child⟩
    cases hdn : isDirNode child with
    | true =>
      have ihc := visitNode_err child (dir ++ [n])
      rcases hv : visitNode child (dir ++ [n]) with ⟨r1, e1⟩
      rw [hv] at ihc
      cases e1 with
      | some e =>
        simp only [visitChildren, hdn, if_true, hv, hasReadFailureList]
        rw [← ihc]
        simp
      | none =>
        have ihr := visitChildren_err rest dir
        rcases hvr : visitChildren rest dir with ⟨r2, e2⟩
        rw [hvr] at ihr
        simp only [visitChildren, hdn, if_true, hv, hvr, hasReadFailureList]
        rw [← ihc, ← ihr]
        simp
    | false =>
      have ihr := visitChildren_err rest dir
      rcases hvr : visitChildren rest dir with ⟨r2, e2⟩
      rw [hvr] at ihr
      have hchild : hasReadFailure child = false := by
        cases child with
        | file => simp [hasReadFailure]
        | inaccessible => simp [hasReadFailure]
        | dir cc ce => simp [isDirNode] at hdn
      simp only [visitChildren, hdn, Bool.false_eq_true, if_false, hvr,
        hasReadFailureList, hchild]
      simpa using ihr

end

mutual

/-- When the walk aborts with an error at directory `e`, the failing
directory is the last one classified: nothing is visited after it. -/
theorem visitNode_err_last (node : FSNode) (dir : List String) (r : ScanResult)
    (e : List String) (h : visitNode node dir = (r, some e)) :
    ∃ pre, r.visited = pre ++ [e] := by
  cases node with
  | file => simp [visitNode] at h
  | inaccessible => simp [visitNode] at h
  | dir children readErr =>
    cases hp : (examineNode children).is_project with
    | true =>
      simp [visitNode, hp] at h
    | false =>
      cases hr : readErr with
      | true =>
        have hnv : visitNode (FSNode.dir children readErr) dir =
            (({ reports := [], files := [], visited := [dir] } : ScanResult), some dir) := by
          simp [visitNode, hp, hr]
        rw [hnv] at h
        rw [Prod.mk.injEq] at h
        obtain ⟨hrr, hee⟩ := h
        refine ⟨[], ?_⟩
        rw [← hrr]
        simpa using congrArg (Option.getD · []) hee
      | false =>
        rcases hvc : visitChildren children dir with ⟨r0, e0⟩
        have hnv : visitNode (FSNode.dir children readErr) dir =
            (({ r0 with visited := dir :: r0.visited } : ScanResult), e0) := by
          simp [visitNode, hp, hr, hvc]
        rw [hnv] at h
        rw [Prod.mk.injEq] at h
        obtain ⟨hrr, hee⟩ := h
        have hsub := visitChildren_err_last children dir r0 e (by rw [hvc, hee])
        rcases hsub with ⟨pre, hpre⟩
        refine ⟨dir :: pre, ?_⟩
        rw [← hrr]
        simp [hpre]

/-- When the children loop aborts with an error at directory `e`, the
failing directory is the last one classified. -/
theorem visitChildren_err_last (entries : List (String × FSNode))
    (dir : List String) (r : ScanResult) (e : List String)
    (h : visitChildren entries dir = (r, some e)) :
    ∃ pre, r.visited = pre ++ [e] := by
  cases entries with
  | nil => simp [visitChildren, ScanResult.empty] at h
  | cons hd rest =>
    rcases hd with ⟨n, child⟩
    cases hdn : isDirNode child with
    | true =>
      rcases hv : visitNode child (dir ++ [n]) with ⟨r1, e1⟩
      cases e1 with
      | some e1v =>
        have hcv : visitChildren ((n, child) :: rest) dir = (r1, some e1v) := by
          simp [visitChildren, hdn, hv]
        rw [hcv] at h
        rw [Prod.mk.injEq] at h
        obtain ⟨hrr, hee⟩ := h
        have hee' : e1v = e := by
          simpa using congrArg (Option.getD · []) hee
        exact hrr ▸ hee' ▸ visitNode_err_last child (dir ++ [n]) r1 e1v hv
      | none =>
        rcases hvr : visitChildren rest dir with ⟨r2, e2⟩
        have hcv : visitChildren ((n, child) :: rest) dir = (r1.append r2, e2) := by
          simp [visitChildren, hdn, hv, hvr]
        rw [hcv] at h
        rw [Prod.mk.injEq] at h
        obtain ⟨hrr, hee⟩ := h
        have hsub := visitChildren_err_last rest dir r2 e (by rw [hvr, hee])
        rcases hsub with ⟨pre, hpre⟩
        refine ⟨r1.visited ++ pre, ?_⟩
        rw [← hrr]
        simp [ScanResult.append, hpre]
    | false =>
      rcases hvr : visitChildren rest dir with ⟨r2, e2⟩
      have hcv : visitChildren ((n, child) :: rest) dir =
          (({ r2 with files := (dir ++ [n]) :: r2.files } : ScanResult), e2) := by
        simp [visitChildren, hdn, hvr]
      rw [hcv] at h
      rw [Prod.mk.injEq] at h
      obtain ⟨hrr, hee⟩ := h
      have hsub := visitChildren_err_last rest dir r2 e (by rw [hvr, hee])
      rcases hsub with ⟨pre, hpre⟩
      refine ⟨pre, ?_⟩
      rw [← hrr]
      simpa using hpre

end

/-- C8: the walk returns an error iff enumerating the children of some
visited non-project directory fails; the error names the failing directory,
which is the last directory visited (the scan aborts there); and marker
probes never produce an error — an entry that cannot be statted, or does
not resolve at all, is simply reported absent (`false`) by both probes. -/
theorem read_error_fatal_probe_miss_absorbed :
    (∀ node dir, (visitNode node dir).2.isSome = hasReadFailure node) ∧
    (∀ node dir r e, visitNode node dir = (r, some e) →
      ∃ pre, r.visited = pre ++ [e]) ∧
    (∀ fs p, resolve fs p = some FSNode.inaccessible →
      path_is_file fs p = false ∧ path_is_dir fs p = false) ∧
    (∀ fs p, resolve fs p = none →
      path_is_file fs p = false ∧ path_is_dir fs p = false) :=
  ⟨visitNode_err, visitNode_err_last,
   fun fs p h => ⟨by simp [path_is_file, h], by simp [path_is_dir, h]⟩,
   fun fs p h => ⟨by simp [path_is_file, h], by simp [path_is_dir, h]⟩⟩

/-- Witness for C8: a root whose subdirectory `bad` cannot be enumerated;
the walk errors at `r/bad`, which is the last directory visited, while the
probes on an inaccessible `.git` entry of the root return absent. -/
theorem read_error_fatal_probe_miss_absorbed_witness :
    ((visitNode (FSNode.dir [("bad", FSNode.dir [] true)] false) ["r"]).2.isSome =
      hasReadFailure (FSNode.dir [("bad", FSNode.dir [] true)] false)) ∧
    (∃ pre, (visitNode (FSNode.dir [("bad", FSNode.dir [] true)] false)
        ["r"]).1.visited = pre ++ [["r", "bad"]]) ∧
    (path_is_file (FSNode.dir [(".git", FSNode.inaccessible)] false) [".git"] = false ∧
     path_is_dir (FSNode.dir [(".git", FSNode.inaccessible)] false) [".git"] = false) :=
  ⟨read_error_fatal_probe_miss_absorbed.1 (FSNode.dir [("bad", FSNode.dir [] true)] false) ["r"],
   read_error_fatal_probe_miss_absorbed.2.1 (FSNode.dir [("bad", FSNode.dir [] true)] false)
     ["r"] _ ["r", "bad"] rfl,
   read_error_fatal_probe_miss_absorbed.2.2.1
     (FSNode.dir [(".git", FSNode.inaccessible)] false) [".git"] rfl⟩

mutual

/-- The depth instrumentation does not change the walk's outcome. -/
theorem visitDepth_fst (node : FSNode) (dir : List String) :
    (visitDepth node dir).1 = visitNode node dir := by
  cases node with
  | file => simp [visitDepth, visitNode]
  | inaccessible => simp [visitDepth, visitNode]
  | dir children readErr =>
    cases hp : (examineNode children).is_project with
    | true => simp [visitDepth, visitNode, hp]
    | false =>
      cases hr : readErr with
      | true => simp [visitDepth, visitNode, hp, hr]
      | false =>
        have ihc := visitChildrenDepth_fst children dir
        rcases hvc : visitChildrenDepth children dir with ⟨⟨r, e⟩, d⟩
        rw [hvc] at ihc
        simp only [visitDepth, visitNode, hp, hr, hvc, ← ihc,
          Bool.false_eq_true, if_false]

/-- The depth instrumentation does not change the children loop's outcome. -/
theorem visitChildrenDepth_fst (entries : List (String × FSNode)) (dir : List String) :
    (visitChildrenDepth entries dir).1 = visitChildren entries dir := by
  cases entries with
  | nil => simp [visitChildrenDepth, visitChildren]
  | cons hd rest =>
    rcases hd with ⟨n, child⟩
    cases hdn : isDirNode child with
    | true =>
      have ihc := visitDepth_fst child (dir ++ [n])
      rcases hv : visitDepth child (dir ++ [n]) with ⟨⟨r1, e1⟩, d1⟩
      rw [hv] at ihc
      cases e1 with
      | some e =>
        simp only [visitChildrenDepth, visitChildren, hdn, if_true, hv, ← ihc]
      | none =>
        have ihr := visitChildrenDepth_fst rest dir
        rcases hvr : visitChildrenDepth rest dir with ⟨⟨r2, e2⟩, d2⟩
        rw [hvr] at ihr
        simp only [visitChildrenDepth, visitChildren, hdn, if_true, hv, hvr,
          ← ihc, ← ihr]
    | false =>
      have ihr := visitChildrenDepth_fst rest dir
      rcases hvr : visitChildrenDepth rest dir with ⟨⟨r2, e2⟩, d2⟩
      rw [hvr] at ihr
      simp only [visitChildrenDepth, visitChildren, hdn, Bool.false_eq_true,
        if_false, hvr, ← ihr]

end

mutual

/-- In the absence of reachable enumeration failures, the walker's recursion
depth is exactly the project-truncated depth of the tree. -/
theorem visitDepth_snd (node : FSNode) (dir : List String)
    (h : hasReadFailure node = false) :
    (visitDepth node dir).2 = scanDepth node := by
  cases node with
  | file => simp [visitDepth, scanDepth]
  | inaccessible => simp [visitDepth, scanDepth]
  | dir children readErr =>
    cases hp : (examineNode children).is_project with
    | true => simp [visitDepth, scanDepth, hp]
    | false =>
      have hsplit : readErr = false ∧ hasReadFailureList children = false := by
        simpa [hasReadFailure, hp] using h
      have ihc := visitChildrenDepth_snd children dir hsplit.2
      rcases hvc : visitChildrenDepth children dir with ⟨⟨r, e⟩, d⟩
      rw [hvc] at ihc
      simp only [visitDepth, scanDepth, hp, hsplit.1, Bool.false_eq_true,
        if_false, hvc]
      simpa using ihc

/-- Children-loop version of `visitDepth_snd`. -/
theorem visitChildrenDepth_snd (entries : List (String × FSNode))
    (dir : List String) (h : hasReadFailureList entries = false) :
    (visitChildrenDepth entries dir).2 = scanDepthList entries := by
  cases entries with
  | nil => simp [visitChildrenDepth, scanDepthList]
  | cons hd rest =>
    rcases hd with ⟨n, child⟩
    have hsplit : hasReadFailure child = false ∧ hasReadFailureList rest = false := by
      simpa [hasReadFailureList] using h
    cases hdn : isDirNode child with
    | true =>
      have ihc := visitDepth_snd child (dir ++ [n]) hsplit.1
      have hnoerr : (visitNode child (dir ++ [n])).2.isSome = false := by
        rw [visitNode_err]
        exact hsplit.1
      have hfst := visitDepth_fst child (dir ++ [n])
      rcases hv : visitDepth child (dir ++ [n]) with ⟨⟨r1, e1⟩, d1⟩
      rw [hv] at ihc hfst
      have h2 : (visitNode child (dir ++ [n])).2 = e1 := by
        rw [← hfst]
      rw [h2] at hnoerr
      cases e1 with
      | some x => simp at hnoerr
      | none =>
        have ihr := visitChildrenDepth_snd rest dir hsplit.2
        rcases hvr : visitChildrenDepth rest dir with ⟨⟨r2, e2⟩, d2⟩
        rw [hvr] at ihr
        have ihc' : d1 = scanDepth child := by simpa using ihc
        have ihr' : d2 = scanDepthList rest := by simpa using ihr
        simp only [visitChildrenDepth, hdn, if_true, hv, hvr, scanDepthList]
        rw [ihc', ihr']
    | false =>
      have ihr := visitChildrenDepth_snd rest dir hsplit.2
      rcases hvr : visitChildrenDepth rest dir with ⟨⟨r2, e2⟩, d2⟩
      rw [hvr] at ihr
      have ihr' : d2 = scanDepthList rest := by simpa using ihr
      simp only [visitChildrenDepth, hdn, Bool.false_eq_true, if_false, hvr,
        scanDepthList]
      simpa [hdn] using ihr' 

end

mutual

/-- The project-truncated depth never exceeds the full tree depth. -/
theorem scanDepth_le_treeDepth (node : FSNode) : scanDepth node ≤ treeDepth node := by
  cases node with
  | file => simp [scanDepth, treeDepth]
  | inaccessible => simp [scanDepth, treeDepth]
  | dir children readErr =>
    cases hp : (examineNode children).is_project with
    | true => simp [scanDepth, treeDepth, hp]
    | false =>
      have ihc := scanDepthList_le_treeDepthList children
      simp only [scanDepth, treeDepth, hp, Bool.false_eq_true, if_false]
      omega

/-- Children version of `scanDepth_le_treeDepth`. -/
theorem scanDepthList_le_treeDepthList (entries : List (String × FSNode)) :
    scanDepthList entries ≤ treeDepthList entries := by
  cases entries with
  | nil => simp [scanDepthList, treeDepthList]
  | cons hd rest =>
    have ih1 := scanDepth_le_treeDepth hd.2
    have ihr := scanDepthList_le_treeDepthList rest
    cases hdn : isDirNode hd.2 with
    | true =>
      simpa [scanDepthList, treeDepthList, hdn] using max_le_max ih1 ihr
    | false =>
      simpa [scanDepthList, treeDepthList, hdn] using max_le_max (le_refl 0) ihr

end

mutual

/-- When no project exists anywhere in the tree, the truncated depth is the
full tree depth. -/
theorem projectFree_scan_eq_tree (node : FSNode) (h : projectFree node = true) :
    scanDepth node = treeDepth node := by
  cases node with
  | file => simp [scanDepth, treeDepth]
  | inaccessible => simp [scanDepth, treeDepth]
  | dir children readErr =>
    have hsplit : (examineNode children).is_project = false ∧
        projectFreeList children = true := by
      simpa [projectFree] using h
    have ihc := projectFreeList_scan_eq_tree children hsplit.2
    simp [scanDepth, treeDepth, hsplit.1, ihc]

/-- Children version of `projectFree_scan_eq_tree`. -/
theorem projectFreeList_scan_eq_tree (entries : List (String × FSNode))
    (h : projectFreeList entries = true) :
    scanDepthList entries = treeDepthList entries := by
  cases entries with
  | nil => simp [scanDepthList, treeDepthList]
  | cons hd rest =>
    have hsplit : projectFree hd.2 = true ∧ projectFreeList rest = true := by
      simpa [projectFreeList] using h
    have ih1 := projectFree_scan_eq_tree hd.2 hsplit.1
    have ihr := projectFreeList_scan_eq_tree rest hsplit.2
    simp [scanDepthList, treeDepthList, ih1, ihr]

end

/-- C9: the walker is a total function of the (finite, acyclic) tree — it
terminates by construction — and its recursion depth, measured by the
instrumented walker `visitDepth` (whose outcome coincides with `visitNode`),
equals `scanDepth`: the branch-wise tree depth truncated at the first
project boundary, which is bounded by the full tree depth and equals it
when no project exists in the tree. -/
theorem walker_terminates_at_pruned_depth :
    (∀ node dir, (visitDepth node dir).1 = visitNode node dir) ∧
    (∀ node dir, hasReadFailure node = false →
      (visitDepth node dir).2 = scanDepth node) ∧
    (∀ node, scanDepth node ≤ treeDepth node) ∧
    (∀ node, projectFree node = true → scanDepth node = treeDepth node) :=
  ⟨visitDepth_fst, visitDepth_snd, scanDepth_le_treeDepth, projectFree_scan_eq_tree⟩

/-- Witness for C9: the `proj-a` scenario tree (no read failure, a project
at depth 2 under a tree of full depth 3) and a project-free tree. -/
theorem walker_terminates_at_pruned_depth_witness :
    ((visitDepth projAScenario ["root"]).2 = scanDepth projAScenario) ∧
    (scanDepth (FSNode.dir [("a", FSNode.dir [] false)] false) =
      treeDepth (FSNode.dir [("a", FSNode.dir [] false)] false)) :=
  ⟨walker_terminates_at_pruned_depth.2.1 projAScenario ["root"] rfl,
   walker_terminates_at_pruned_depth.2.2.2
     (FSNode.dir [("a", FSNode.dir [] false)] false) rfl⟩

end ProjectFinder
